import Mathlib

/-!
Shallow embedding of the ring-arena layout geometry of
`flypanel_layout_tools` (file `ring_layout.py`).

Conventions of the embedding:
* Python floats are modelled by `ℝ`; `np.cos`, `np.sin`, `np.tan`, `np.pi`
  become `Real.cos`, `Real.sin`, `Real.tan`, `Real.pi`.
* Config values are taken already in mm / rad units (`to_mm` / `to_rad` are
  the identity for those configured units).
* Python exceptions (`ZeroDivisionError`, `KeyError`, `IndexError`) are
  modelled with `Option`: `none` means the computation raises.
* Python dicts become association lists (`List (String × _)`) preserving
  insertion order; `d[k]` is `dlookup`, `d[k] = v` is `dinsert`.
* In-place mutation of `cur_comp_data` inside `get_new_comp_data` is made
  explicit: the embedded function returns the final mutated map alongside
  the fresh `new_comp_data` map.
-/

namespace FlypanelLayout

/-- Component placement data: x, y position (mm) and orientation angle (rad),
as read from / written to the pcb. -/
structure CompData where
  x : ℝ
  y : ℝ
  angle : ℝ

theorem CompData.ext_iff' (a b : CompData) :
    a = b ↔ a.x = b.x ∧ a.y = b.y ∧ a.angle = b.angle := by
  constructor
  · intro h; subst h; exact ⟨rfl, rfl, rfl⟩
  · rintro ⟨hx, hy, ha⟩; cases a; cases b; simp_all

/-- Python dict lookup `d[k]`: `none` models a `KeyError`. -/
def dlookup {β : Type} (k : String) : List (String × β) → Option β
  | [] => none
  | p :: rest => if p.1 = k then some p.2 else dlookup k rest

/-- Python dict assignment `d[k] = v`: replace in place if the key exists
(keeping its position), otherwise append at the end. -/
def dinsert {β : Type} (m : List (String × β)) (k : String) (v : β) :
    List (String × β) :=
  if k ∈ m.map Prod.fst then
    m.map (fun p => if p.1 = k then (k, v) else p)
  else
    m ++ [(k, v)]

/-- `panel` section of the configuration (values already in mm / rad). -/
structure PanelConfig where
  number : ℕ
  width : ℝ
  depth : ℝ
  offset_angle : ℝ
  omitted : List ℤ

/-- `pins` section of the configuration (values already in mm). -/
structure PinsConfig where
  number : ℕ
  pitch : ℝ
  depth : ℝ
  omitted : List ℤ

/-- The part of the toml configuration used by `RingLayout.make_values`. -/
structure Config where
  panel : PanelConfig
  pins : PinsConfig

/-- A line `[(x0,x1),(y0,y1)]` as built by `get_face_lines` /
`get_side_lines`. -/
def Line : Type := (ℝ × ℝ) × (ℝ × ℝ)

/-- numpy boolean-mask indexing `xs[mask]`. -/
def maskFilter {α : Type} (mask : List Bool) (xs : List α) : List α :=
  ((mask.zip xs).filter (fun p => p.1)).map (fun p => p.2)

/-- `get_face_lines(xvals, yvals, angles, width)` from `ring_layout.py`:
for each panel center and angle, the face segment of length `width`
perpendicular to the radial direction (along `angle + π/2`). -/
noncomputable def get_face_lines (xvals yvals angles : List ℝ) (width : ℝ) :
    List Line :=
  (xvals.zip (yvals.zip angles)).map (fun q =>
    let x := q.1
    let y := q.2.1
    let ang := q.2.2 + 0.5 * Real.pi
    ((x - 0.5 * width * Real.cos ang, x + 0.5 * width * Real.cos ang),
     (y - 0.5 * width * Real.sin ang, y + 0.5 * width * Real.sin ang)))

/-- `get_side_lines(lines_front, lines_back)` from `ring_layout.py`:
joins matching endpoints of front and back face segments. -/
def get_side_lines (lines_front lines_back : List Line) :
    List Line × List Line :=
  let pairs := lines_front.zip lines_back
  (pairs.map (fun q => ((q.1.1.1, q.2.1.1), (q.1.2.1, q.2.2.1))),
   pairs.map (fun q => ((q.1.1.2, q.2.1.2), (q.1.2.2, q.2.2.2))))

/-- `get_pin_pos(angles, num, radius, pitch, omitted)` from `ring_layout.py`:
per header, the pin center on the pins circle and the positions of the
non-omitted pins (1-based omission indices), spread along `angle + π/2`.
Returns `(pin_positions, pin_centers)`. -/
noncomputable def get_pin_pos (angles : List ℝ) (num : ℕ) (radius pitch : ℝ)
    (omitted : List ℤ) : List (List ℝ × List ℝ) × List (ℝ × ℝ) :=
  let width : ℝ := ((num : ℝ) - 1) * pitch
  let keptIdx : List ℕ :=
    (List.range num).filter (fun i : ℕ => ¬((i : ℤ) + 1 ∈ omitted))
  let pin_positions := angles.map (fun ang =>
    let cx := radius * Real.cos ang
    let cy := radius * Real.sin ang
    (keptIdx.map (fun i : ℕ =>
        cx + ((i : ℝ) * pitch - 0.5 * width) * Real.cos (ang + 0.5 * Real.pi)),
     keptIdx.map (fun i : ℕ =>
        cy + ((i : ℝ) * pitch - 0.5 * width) * Real.sin (ang + 0.5 * Real.pi))))
  let pin_centers := angles.map (fun ang =>
    (radius * Real.cos ang, radius * Real.sin ang))
  (pin_positions, pin_centers)

/-- The dictionary of derived arena values built by `RingLayout.make_values`. -/
structure Values where
  num_panel : ℕ
  installed_mask : List Bool
  num_installed : ℕ
  subtended_angle : ℝ
  radius_front : ℝ
  radius_back : ℝ
  radius_pins : ℝ
  angles : List ℝ
  front_x : List ℝ
  front_y : List ℝ
  back_x : List ℝ
  back_y : List ℝ
  lines_front : List Line
  lines_back : List Line
  lines_left : List Line
  lines_right : List Line
  pin_positions : List (List ℝ × List ℝ)
  pin_centers : List (ℝ × ℝ)

/-- Local `installed_mask` of `make_values`:
`[not (i in omitted_panels) for i in range(num_panel)]`. -/
def installedMaskOf (cfg : Config) : List Bool :=
  (List.range cfg.panel.number).map
    (fun i : ℕ => decide (¬((i : ℤ) ∈ cfg.panel.omitted)))

/-- Local `subtended_angle` of `make_values`: `2.0*np.pi/num_panel`. -/
noncomputable def subtendedAngleOf (cfg : Config) : ℝ :=
  2.0 * Real.pi / (cfg.panel.number : ℝ)

/-- Local `radius_front` of `make_values`:
`(0.5*panel_width)/np.tan(0.5*subtended_angle)`. -/
noncomputable def radiusFrontOf (cfg : Config) : ℝ :=
  (0.5 * cfg.panel.width) / Real.tan (0.5 * subtendedAngleOf cfg)

/-- Local `radius_back` of `make_values`: `radius_front + panel_depth`. -/
noncomputable def radiusBackOf (cfg : Config) : ℝ :=
  radiusFrontOf cfg + cfg.panel.depth

/-- Local `radius_pins` of `make_values`: `radius_front + pin_depth`. -/
noncomputable def radiusPinsOf (cfg : Config) : ℝ :=
  radiusFrontOf cfg + cfg.pins.depth

/-- Local `angles` of `make_values`:
`np.arange(num_panel)*subtended_angle + offset_angle`, masked by
`installed_mask`, then negated (`angles = -angles`). -/
noncomputable def anglesOf (cfg : Config) : List ℝ :=
  ((maskFilter (installedMaskOf cfg)
    ((List.range cfg.panel.number).map
      (fun k : ℕ => (k : ℝ) * subtendedAngleOf cfg + cfg.panel.offset_angle)))).map
    (fun a => -a)

/-- The `values` record assembled at the end of `make_values` (the body after
the division `2.0*np.pi/num_panel` has succeeded). -/
noncomputable def valuesOf (cfg : Config) : Values :=
  let angles := anglesOf cfg
  let radius_front := radiusFrontOf cfg
  let radius_back := radiusBackOf cfg
  let radius_pins := radiusPinsOf cfg
  let front_x := angles.map (fun a => radius_front * Real.cos a)
  let front_y := angles.map (fun a => radius_front * Real.sin a)
  let back_x := angles.map (fun a => radius_back * Real.cos a)
  let back_y := angles.map (fun a => radius_back * Real.sin a)
  let lines_front := get_face_lines front_x front_y angles cfg.panel.width
  let lines_back := get_face_lines back_x back_y angles cfg.panel.width
  let sides := get_side_lines lines_front lines_back
  let pins := get_pin_pos angles cfg.pins.number radius_pins cfg.pins.pitch
    cfg.pins.omitted
  { num_panel := cfg.panel.number
    installed_mask := installedMaskOf cfg
    num_installed := (installedMaskOf cfg).count true
    subtended_angle := subtendedAngleOf cfg
    radius_front := radius_front
    radius_back := radius_back
    radius_pins := radius_pins
    angles := angles
    front_x := front_x
    front_y := front_y
    back_x := back_x
    back_y := back_y
    lines_front := lines_front
    lines_back := lines_back
    lines_left := sides.1
    lines_right := sides.2
    pin_positions := pins.1
    pin_centers := pins.2 }

/-- `RingLayout.make_values` from `ring_layout.py`.  `none` models the
`ZeroDivisionError` raised by `2.0*np.pi/num_panel` when
`panel.number = 0`. -/
noncomputable def make_values (cfg : Config) : Option Values :=
  if cfg.panel.number = 0 then none else some (valuesOf cfg)

theorem valuesOf_num_panel (cfg : Config) :
    (valuesOf cfg).num_panel = cfg.panel.number := rfl

theorem valuesOf_radius_front (cfg : Config) :
    (valuesOf cfg).radius_front = radiusFrontOf cfg := rfl

theorem valuesOf_radius_back (cfg : Config) :
    (valuesOf cfg).radius_back = radiusBackOf cfg := rfl

theorem valuesOf_radius_pins (cfg : Config) :
    (valuesOf cfg).radius_pins = radiusPinsOf cfg := rfl

theorem valuesOf_angles (cfg : Config) :
    (valuesOf cfg).angles = anglesOf cfg := rfl

theorem valuesOf_front_x (cfg : Config) :
    (valuesOf cfg).front_x =
      (anglesOf cfg).map (fun a => radiusFrontOf cfg * Real.cos a) := rfl

theorem valuesOf_front_y (cfg : Config) :
    (valuesOf cfg).front_y =
      (anglesOf cfg).map (fun a => radiusFrontOf cfg * Real.sin a) := rfl

theorem valuesOf_back_x (cfg : Config) :
    (valuesOf cfg).back_x =
      (anglesOf cfg).map (fun a => radiusBackOf cfg * Real.cos a) := rfl

theorem valuesOf_back_y (cfg : Config) :
    (valuesOf cfg).back_y =
      (anglesOf cfg).map (fun a => radiusBackOf cfg * Real.sin a) := rfl

theorem valuesOf_lines_front (cfg : Config) :
    (valuesOf cfg).lines_front =
      get_face_lines (valuesOf cfg).front_x (valuesOf cfg).front_y
        (anglesOf cfg) cfg.panel.width := rfl

theorem valuesOf_lines_back (cfg : Config) :
    (valuesOf cfg).lines_back =
      get_face_lines (valuesOf cfg).back_x (valuesOf cfg).back_y
        (anglesOf cfg) cfg.panel.width := rfl

theorem valuesOf_lines_left (cfg : Config) :
    (valuesOf cfg).lines_left =
      (get_side_lines (valuesOf cfg).lines_front (valuesOf cfg).lines_back).1 :=
  rfl

theorem valuesOf_lines_right (cfg : Config) :
    (valuesOf cfg).lines_right =
      (get_side_lines (valuesOf cfg).lines_front (valuesOf cfg).lines_back).2 :=
  rfl

theorem valuesOf_pin_positions (cfg : Config) :
    (valuesOf cfg).pin_positions =
      (get_pin_pos (anglesOf cfg) cfg.pins.number (radiusPinsOf cfg)
        cfg.pins.pitch cfg.pins.omitted).1 := rfl

theorem valuesOf_pin_centers (cfg : Config) :
    (valuesOf cfg).pin_centers =
      (get_pin_pos (anglesOf cfg) cfg.pins.number (radiusPinsOf cfg)
        cfg.pins.pitch cfg.pins.omitted).2 := rfl

theorem make_values_eq_some (cfg : Config) (h : cfg.panel.number ≠ 0) :
    make_values cfg = some (valuesOf cfg) := by
  simp [make_values, h]

/-- Boolean-mask indexing of a mapped list agrees with `filter`. -/
theorem maskFilter_map_map {α β : Type} (p : α → Bool) (f : α → β)
    (xs : List α) :
    maskFilter (xs.map p) (xs.map f) = (xs.filter p).map f := by
  induction xs with
  | nil => rfl
  | cons x xs ih =>
    by_cases hx : p x <;>
      simp [maskFilter, List.filter_cons, hx] <;>
      simpa [maskFilter] using ih

/-- The `angles` sequence of `make_values`, written as a filtered range. -/
theorem anglesOf_eq_filter (cfg : Config) :
    anglesOf cfg =
      ((List.range cfg.panel.number).filter
          (fun i : ℕ => decide (¬((i : ℤ) ∈ cfg.panel.omitted)))).map
        (fun k : ℕ =>
          -((k : ℝ) * subtendedAngleOf cfg + cfg.panel.offset_angle)) := by
  unfold anglesOf installedMaskOf
  rw [maskFilter_map_map, List.map_map]
  rfl

/-- Application of the 2×2 matrix
`[[cos a, -sin a], [sin a, cos a]]` (the `rot_matrix` of
`get_new_comp_data`) to a point. -/
noncomputable def rot (a : ℝ) (p : ℝ × ℝ) : ℝ × ℝ :=
  (Real.cos a * p.1 - Real.sin a * p.2,
   Real.sin a * p.1 + Real.cos a * p.2)

/-- One iteration of the first loop of `get_new_comp_data`
(`for ind, panel_ref in enumerate(panel_ref_list)`): the desired position and
angle of one panel header.  `p` is the `enumerate` pair `(ind, panel_ref)`;
`none` models the `IndexError` on `angles[ind]` / `pin_centers[ind]`. -/
noncomputable def header_step (angles : List ℝ) (pin_centers : List (ℝ × ℝ))
    (pcb_cx pcb_cy : ℝ) (acc : List (String × CompData)) (p : ℕ × String) :
    Option (List (String × CompData)) := do
  let a ← angles.get? p.1
  let c ← pin_centers.get? p.1
  pure (dinsert acc p.2 ⟨c.1 + pcb_cx, c.2 + pcb_cy, -(a + Real.pi / 2)⟩)

/-- One iteration of the normalization loop of `get_new_comp_data`
(`for data in model_rel_data`), acting on the mutable `cur_comp_data` state
`m`: the relative component `r` is shifted by the live model position and
rotated by the snapshotted model `angle`. -/
noncomputable def normalize_step (model_ref : String) (angle : ℝ)
    (m : List (String × CompData)) (r : String) :
    Option (List (String × CompData)) := do
  let data ← dlookup r m
  let md ← dlookup model_ref m
  let p := rot angle (data.x - md.x, data.y - md.y)
  pure (dinsert m r ⟨p.1, p.2, data.angle - angle⟩)

/-- One iteration of the inner placement loop of `get_new_comp_data`
(`for ind, rel_comp_ref in enumerate(rel_comp_ref_list)`).  `q` is the
`enumerate` pair; `none` models the `IndexError` on `model_rel_data[ind]`. -/
noncomputable def place_rel_step (model_rel_data : List CompData)
    (hdr : CompData) (hangle : ℝ) (acc2 : List (String × CompData))
    (q : ℕ × String) : Option (List (String × CompData)) := do
  let data ← model_rel_data.get? q.1
  let p := rot hangle (data.x, data.y)
  pure (dinsert acc2 q.2 ⟨hdr.x + p.1, hdr.y + p.2, -(hangle - data.angle)⟩)

/-- One iteration of the outer placement loop of `get_new_comp_data`
(`for panel_ref, rel_comp_ref_list in panel_ref_to_rel.items()`). -/
noncomputable def place_panel_step (model_rel_data : List CompData)
    (acc : List (String × CompData)) (pr : String × List String) :
    Option (List (String × CompData)) := do
  let hdr ← dlookup pr.1 acc
  let hangle := -hdr.angle
  pr.2.enum.foldlM (place_rel_step model_rel_data hdr hangle) acc

/-- `get_new_comp_data` from `ring_layout.py`, with the in-place mutation of
`cur_comp_data` made explicit: returns `(new_comp_data, cur_comp_data')`
where `cur_comp_data'` is the state of the mutated argument after the call.
`none` models the `KeyError` / `IndexError` exception paths. -/
noncomputable def get_new_comp_data
    (angles : List ℝ) (pin_centers : List (ℝ × ℝ)) (pcb_cx pcb_cy : ℝ)
    (model_ref : String) (panel_ref_list : List String)
    (panel_ref_to_rel : List (String × List String))
    (cur_comp_data : List (String × CompData)) :
    Option (List (String × CompData) × List (String × CompData)) := do
  -- desired x,y positions and angles for panel headers
  let new0 ← panel_ref_list.enum.foldlM
    (header_step angles pin_centers pcb_cx pcb_cy)
    ([] : List (String × CompData))
  -- model data and data for relative components
  let model_data ← dlookup model_ref cur_comp_data
  let model_rel_refs ← dlookup model_ref panel_ref_to_rel
  let _ ← model_rel_refs.mapM (fun r => dlookup r cur_comp_data)
  -- shift and rotate model and relative components (mutates cur_comp_data);
  -- the rotation angle is snapshotted before the loop
  let cur1 ← model_rel_refs.foldlM
    (normalize_step model_ref model_data.angle) cur_comp_data
  let cur2 := dinsert cur1 model_ref ⟨0, 0, 0⟩
  -- the live values of the (mutated) model-relative component entries
  let model_rel_data ← model_rel_refs.mapM (fun r => dlookup r cur2)
  -- placements for all relative components
  let new1 ← panel_ref_to_rel.foldlM (place_panel_step model_rel_data) new0
  pure (new1, cur2)

/-! ### Concrete configurations used to instantiate the theorems -/

/-- An 8-panel arena configuration, no omissions. -/
noncomputable def cfgA : Config := ⟨⟨8, 20, 5, 0, []⟩, ⟨4, 2, 1, []⟩⟩

/-- A configuration with `panel.number = 0`. -/
noncomputable def cfgZero : Config := ⟨⟨0, 20, 5, 0, []⟩, ⟨4, 2, 1, []⟩⟩

/-- A 2-panel configuration in which both panels are omitted. -/
noncomputable def cfgAllOmitted : Config :=
  ⟨⟨2, 20, 5, 0, [0, 1]⟩, ⟨4, 2, 1, []⟩⟩

/-- A 4-panel arena configuration with `offset_angle = 0`, no omissions. -/
noncomputable def cfgC1 : Config := ⟨⟨4, 20, 5, 0, []⟩, ⟨4, 2, 1, []⟩⟩

/-! ### Claims -/

/-- C6: for every valid configuration (positive `panel.width`, `panel.depth`,
`pins.depth`, `panel.number ≥ 1`), the derived radii satisfy
`radius_back - radius_front = panel.depth` and
`radius_pins - radius_front = pins.depth` exactly. -/
theorem C6_radius_differences (cfg : Config) (hw : 0 < cfg.panel.width)
    (hd : 0 < cfg.panel.depth) (hpd : 0 < cfg.pins.depth)
    (hN : 1 ≤ cfg.panel.number) :
    ∃ v, make_values cfg = some v ∧
      v.radius_back - v.radius_front = cfg.panel.depth ∧
      v.radius_pins - v.radius_front = cfg.pins.depth := by
  refine ⟨valuesOf cfg, make_values_eq_some cfg (by omega), ?_, ?_⟩
  · simp only [valuesOf_radius_back, valuesOf_radius_front, radiusBackOf]
    ring
  · simp only [valuesOf_radius_pins, valuesOf_radius_front, radiusPinsOf]
    ring

theorem C6_radius_differences_witness :
    (0 < cfgA.panel.width ∧ 0 < cfgA.panel.depth ∧ 0 < cfgA.pins.depth ∧
      1 ≤ cfgA.panel.number) ∧
    ∃ v, make_values cfgA = some v ∧
      v.radius_back - v.radius_front = cfgA.panel.depth ∧
      v.radius_pins - v.radius_front = cfgA.pins.depth :=
  ⟨⟨by norm_num [cfgA], by norm_num [cfgA], by norm_num [cfgA],
      by norm_num [cfgA]⟩,
    C6_radius_differences cfgA (by norm_num [cfgA]) (by norm_num [cfgA])
      (by norm_num [cfgA]) (by norm_num [cfgA])⟩

/-- C7: for every configuration with `panel.number = 0`, computing the arena
geometry is a domain error (`2.0*np.pi/num_panel` divides by zero): the
computation fails and produces no geometry values. -/
theorem C7_zero_panels_error (cfg : Config) (h : cfg.panel.number = 0) :
    make_values cfg = none := by
  simp [make_values, h]

theorem C7_zero_panels_error_witness :
    cfgZero.panel.number = 0 ∧ make_values cfgZero = none :=
  ⟨rfl, C7_zero_panels_error cfgZero rfl⟩

/-- C1 (counterexample): the claim says the k-th entry of the `angles`
sequence equals `k*(2π/N) + offset_angle`; but `make_values` negates the
angle array (`angles = -angles`), so for `N = 4`, `offset_angle = 0` the
entry at index 1 is `-(2π/4)`, not `1*(2π/4) + 0`. -/
theorem C1_counterexample :
    (make_values cfgC1).map (fun v => v.angles.get? 1) =
      some (some (-(2 * Real.pi / 4))) ∧
    -(2 * Real.pi / 4) ≠
      (1 : ℝ) * (2 * Real.pi / (cfgC1.panel.number : ℝ)) +
        cfgC1.panel.offset_angle := by
  constructor
  · rw [make_values_eq_some cfgC1 (by norm_num [cfgC1])]
    simp only [Option.map_some', valuesOf_angles, anglesOf_eq_filter]
    norm_num [cfgC1, subtendedAngleOf, List.range_succ]
  · norm_num [cfgC1]
    intro h
    nlinarith [Real.pi_pos]

/-- C1 (amended): for every configuration with `panel.number = N ≥ 1` and an
empty `panel.omitted` set, the `angles` sequence has length `N`, its k-th
entry equals `-(k*(2π/N) + offset_angle)` for `k = 0..N-1` in ascending index
order, and consecutive angles differ by exactly `-(2π/N)`. -/
theorem C1_amended_angles (cfg : Config) (hN : 1 ≤ cfg.panel.number)
    (hom : cfg.panel.omitted = []) :
    ∃ v, make_values cfg = some v ∧
      v.angles.length = cfg.panel.number ∧
      (∀ k, k < cfg.panel.number →
        v.angles.get? k =
          some (-((k : ℝ) * (2 * Real.pi / (cfg.panel.number : ℝ)) +
            cfg.panel.offset_angle))) ∧
      (∀ k, ∀ a b : ℝ, v.angles.get? k = some a →
        v.angles.get? (k + 1) = some b →
        b - a = -(2 * Real.pi / (cfg.panel.number : ℝ))) := by
  have hsub : subtendedAngleOf cfg = 2 * Real.pi / (cfg.panel.number : ℝ) := by
    norm_num [subtendedAngleOf]
  have hangles : anglesOf cfg =
      (List.range cfg.panel.number).map
        (fun k : ℕ => -((k : ℝ) * (2 * Real.pi / (cfg.panel.number : ℝ)) +
          cfg.panel.offset_angle)) := by
    rw [anglesOf_eq_filter, hsub]
    simp [hom]
  have hget : ∀ k, k < cfg.panel.number →
      (anglesOf cfg).get? k =
        some (-((k : ℝ) * (2 * Real.pi / (cfg.panel.number : ℝ)) +
          cfg.panel.offset_angle)) := by
    intro k hk
    rw [hangles, List.get?_map, List.get?_range hk]
    rfl
  refine ⟨valuesOf cfg, make_values_eq_some cfg (by omega), ?_, ?_, ?_⟩
  · simp [valuesOf_angles, hangles]
  · intro k hk
    rw [valuesOf_angles]
    exact hget k hk
  · intro k a b ha hb
    rw [valuesOf_angles] at ha hb
    have hlen : (anglesOf cfg).length = cfg.panel.number := by
      simp [hangles]
    have hk1 : k + 1 < cfg.panel.number := by
      by_contra hcon
      have : (anglesOf cfg).get? (k + 1) = none := by
        rw [List.get?_eq_none, hlen]
        omega
      rw [this] at hb
      exact Option.noConfusion hb
    have hk : k < cfg.panel.number := by omega
    rw [hget k hk] at ha
    rw [hget (k + 1) hk1] at hb
    have ha' := Option.some.inj ha
    have hb' := Option.some.inj hb
    rw [← ha', ← hb']
    push_cast
    ring

theorem C1_amended_angles_witness :
    (1 ≤ cfgC1.panel.number ∧ cfgC1.panel.omitted = []) ∧
    ∃ v, make_values cfgC1 = some v ∧
      v.angles.length = cfgC1.panel.number ∧
      (∀ k, k < cfgC1.panel.number →
        v.angles.get? k =
          some (-((k : ℝ) * (2 * Real.pi / (cfgC1.panel.number : ℝ)) +
            cfgC1.panel.offset_angle))) ∧
      (∀ k, ∀ a b : ℝ, v.angles.get? k = some a →
        v.angles.get? (k + 1) = some b →
        b - a = -(2 * Real.pi / (cfgC1.panel.number : ℝ))) :=
  ⟨⟨by norm_num [cfgC1], rfl⟩,
    C1_amended_angles cfgC1 (by norm_num [cfgC1]) rfl⟩

/-- C8: for every configuration with `panel.number = N ≥ 1` in which
`panel.omitted` contains all indices `0..N-1`, the geometry engine succeeds
and returns empty sequences for every per-panel output. -/
theorem C8_all_omitted_empty (cfg : Config) (hN : 1 ≤ cfg.panel.number)
    (hall : ∀ i : ℕ, i < cfg.panel.number → (i : ℤ) ∈ cfg.panel.omitted) :
    ∃ v, make_values cfg = some v ∧ v.angles = [] ∧ v.front_x = [] ∧
      v.front_y = [] ∧ v.back_x = [] ∧ v.back_y = [] ∧ v.lines_front = [] ∧
      v.lines_back = [] ∧ v.lines_left = [] ∧ v.lines_right = [] ∧
      v.pin_positions = [] ∧ v.pin_centers = [] := by
  have hangles : anglesOf cfg = [] := by
    rw [anglesOf_eq_filter]
    have hfil : (List.range cfg.panel.number).filter
        (fun i : ℕ => decide (¬((i : ℤ) ∈ cfg.panel.omitted))) = [] := by
      rw [List.filter_eq_nil]
      intro a ha
      have halt : a < cfg.panel.number := List.mem_range.mp ha
      simp [hall a halt]
    rw [hfil]
    rfl
  refine ⟨valuesOf cfg, make_values_eq_some cfg (by omega), ?_, ?_, ?_, ?_, ?_,
    ?_, ?_, ?_, ?_, ?_, ?_⟩ <;>
    simp [valuesOf_angles, valuesOf_front_x, valuesOf_front_y, valuesOf_back_x,
      valuesOf_back_y, valuesOf_lines_front, valuesOf_lines_back,
      valuesOf_lines_left, valuesOf_lines_right, valuesOf_pin_positions,
      valuesOf_pin_centers, hangles, get_face_lines, get_side_lines,
      get_pin_pos]

theorem C8_all_omitted_empty_witness :
    (1 ≤ cfgAllOmitted.panel.number ∧
      (∀ i : ℕ, i < cfgAllOmitted.panel.number →
        (i : ℤ) ∈ cfgAllOmitted.panel.omitted)) ∧
    ∃ v, make_values cfgAllOmitted = some v ∧ v.angles = [] ∧
      v.front_x = [] ∧ v.front_y = [] ∧ v.back_x = [] ∧ v.back_y = [] ∧
      v.lines_front = [] ∧ v.lines_back = [] ∧ v.lines_left = [] ∧
      v.lines_right = [] ∧ v.pin_positions = [] ∧ v.pin_centers = [] :=
  ⟨⟨by norm_num [cfgAllOmitted], by
      intro i hi
      have h2 : i < 2 := by simpa [cfgAllOmitted] using hi
      interval_cases i <;> simp [cfgAllOmitted]⟩,
    C8_all_omitted_empty cfgAllOmitted (by norm_num [cfgAllOmitted]) (by
      intro i hi
      have h2 : i < 2 := by simpa [cfgAllOmitted] using hi
      interval_cases i <;> simp [cfgAllOmitted])⟩

theorem length_get_face_lines (xs ys as : List ℝ) (w : ℝ) :
    (get_face_lines xs ys as w).length =
      min xs.length (min ys.length as.length) := by
  simp [get_face_lines]

theorem length_get_side_lines_fst (lf lb : List Line) :
    (get_side_lines lf lb).1.length = min lf.length lb.length := by
  simp [get_side_lines]

theorem length_get_side_lines_snd (lf lb : List Line) :
    (get_side_lines lf lb).2.length = min lf.length lb.length := by
  simp [get_side_lines]

theorem length_get_pin_pos_fst (as : List ℝ) (n : ℕ) (r p : ℝ)
    (om : List ℤ) : (get_pin_pos as n r p om).1.length = as.length := by
  simp [get_pin_pos]

theorem length_get_pin_pos_snd (as : List ℝ) (n : ℕ) (r p : ℝ)
    (om : List ℤ) : (get_pin_pos as n r p om).2.length = as.length := by
  simp [get_pin_pos]

/-- Dropping panels 0 and 2 from `range N` leaves `N - 2` indices. -/
theorem filter_range_drop02_length (N : ℕ) (hN : 2 < N) :
    ((List.range N).filter
      (fun i : ℕ => decide (¬((i : ℤ) ∈ ([0, 2] : List ℤ))))).length = N - 2 := by
  induction N, hN using Nat.le_induction with
  | base => decide
  | succ n hn ih =>
    rw [List.range_succ, List.filter_append]
    have hkeep : (List.filter
        (fun i : ℕ => decide (¬((i : ℤ) ∈ ([0, 2] : List ℤ)))) [n]) = [n] := by
      simp only [List.filter_cons, List.filter_nil]
      have h0 : (n : ℤ) ≠ 0 := by omega
      have h2 : (n : ℤ) ≠ 2 := by omega
      simp [h0, h2]
    rw [hkeep]
    simp only [List.length_append, List.length_cons, List.length_nil, ih]
    omega

/-- C4: for every configuration with `panel.number = N > 2` and
`panel.omitted = {0, 2}`, every per-panel derived sequence has length `N - 2`,
and the surviving entries appear in the same relative order as their original
panel indices (the index list is the strictly increasing filtered range). -/
theorem C4_omit_two_panels (cfg : Config) (hN : 2 < cfg.panel.number)
    (hom : cfg.panel.omitted = [0, 2]) :
    ∃ v, make_values cfg = some v ∧
      v.angles =
        ((List.range cfg.panel.number).filter
            (fun i : ℕ => decide (¬((i : ℤ) ∈ ([0, 2] : List ℤ))))).map
          (fun k : ℕ =>
            -((k : ℝ) * subtendedAngleOf cfg + cfg.panel.offset_angle)) ∧
      ((List.range cfg.panel.number).filter
          (fun i : ℕ => decide (¬((i : ℤ) ∈ ([0, 2] : List ℤ))))).Pairwise
        (· < ·) ∧
      v.angles.length = cfg.panel.number - 2 ∧
      v.front_x.length = cfg.panel.number - 2 ∧
      v.front_y.length = cfg.panel.number - 2 ∧
      v.back_x.length = cfg.panel.number - 2 ∧
      v.back_y.length = cfg.panel.number - 2 ∧
      v.lines_front.length = cfg.panel.number - 2 ∧
      v.lines_back.length = cfg.panel.number - 2 ∧
      v.lines_left.length = cfg.panel.number - 2 ∧
      v.lines_right.length = cfg.panel.number - 2 ∧
      v.pin_positions.length = cfg.panel.number - 2 ∧
      v.pin_centers.length = cfg.panel.number - 2 := by
  have hangles_eq : anglesOf cfg =
      ((List.range cfg.panel.number).filter
          (fun i : ℕ => decide (¬((i : ℤ) ∈ ([0, 2] : List ℤ))))).map
        (fun k : ℕ =>
          -((k : ℝ) * subtendedAngleOf cfg + cfg.panel.offset_angle)) := by
    rw [anglesOf_eq_filter, hom]
  have hlen : (anglesOf cfg).length = cfg.panel.number - 2 := by
    rw [hangles_eq, List.length_map, filter_range_drop02_length _ hN]
  refine ⟨valuesOf cfg, make_values_eq_some cfg (by omega), ?_, ?_, ?_, ?_, ?_,
    ?_, ?_, ?_, ?_, ?_, ?_, ?_, ?_⟩
  · rw [valuesOf_angles, hangles_eq]
  · exact List.Pairwise.filter _ (List.pairwise_lt_range _)
  · rw [valuesOf_angles, hlen]
  · rw [valuesOf_front_x, List.length_map, hlen]
  · rw [valuesOf_front_y, List.length_map, hlen]
  · rw [valuesOf_back_x, List.length_map, hlen]
  · rw [valuesOf_back_y, List.length_map, hlen]
  · rw [valuesOf_lines_front, length_get_face_lines, valuesOf_front_x,
      valuesOf_front_y]
    simp [hlen]
  · rw [valuesOf_lines_back, length_get_face_lines, valuesOf_back_x,
      valuesOf_back_y]
    simp [hlen]
  · rw [valuesOf_lines_left, length_get_side_lines_fst, valuesOf_lines_front,
      valuesOf_lines_back, length_get_face_lines, length_get_face_lines,
      valuesOf_front_x, valuesOf_front_y, valuesOf_back_x, valuesOf_back_y]
    simp [hlen]
  · rw [valuesOf_lines_right, length_get_side_lines_snd, valuesOf_lines_front,
      valuesOf_lines_back, length_get_face_lines, length_get_face_lines,
      valuesOf_front_x, valuesOf_front_y, valuesOf_back_x, valuesOf_back_y]
    simp [hlen]
  · rw [valuesOf_pin_positions, length_get_pin_pos_fst, hlen]
  · rw [valuesOf_pin_centers, length_get_pin_pos_snd, hlen]

/-- A 5-panel arena configuration with panels 0 and 2 omitted. -/
noncomputable def cfgC4 : Config := ⟨⟨5, 20, 5, 0, [0, 2]⟩, ⟨4, 2, 1, []⟩⟩

theorem C4_omit_two_panels_witness :
    (2 < cfgC4.panel.number ∧ cfgC4.panel.omitted = [0, 2]) ∧
    ∃ v, make_values cfgC4 = some v ∧
      v.angles =
        ((List.range cfgC4.panel.number).filter
            (fun i : ℕ => decide (¬((i : ℤ) ∈ ([0, 2] : List ℤ))))).map
          (fun k : ℕ =>
            -((k : ℝ) * subtendedAngleOf cfgC4 + cfgC4.panel.offset_angle)) ∧
      ((List.range cfgC4.panel.number).filter
          (fun i : ℕ => decide (¬((i : ℤ) ∈ ([0, 2] : List ℤ))))).Pairwise
        (· < ·) ∧
      v.angles.length = cfgC4.panel.number - 2 ∧
      v.front_x.length = cfgC4.panel.number - 2 ∧
      v.front_y.length = cfgC4.panel.number - 2 ∧
      v.back_x.length = cfgC4.panel.number - 2 ∧
      v.back_y.length = cfgC4.panel.number - 2 ∧
      v.lines_front.length = cfgC4.panel.number - 2 ∧
      v.lines_back.length = cfgC4.panel.number - 2 ∧
      v.lines_left.length = cfgC4.panel.number - 2 ∧
      v.lines_right.length = cfgC4.panel.number - 2 ∧
      v.pin_positions.length = cfgC4.panel.number - 2 ∧
      v.pin_centers.length = cfgC4.panel.number - 2 :=
  ⟨⟨by norm_num [cfgC4], rfl⟩,
    C4_omit_two_panels cfgC4 (by norm_num [cfgC4]) rfl⟩

/-- C5: `get_pin_pos` keeps exactly the pins whose 1-based index is not in
`pins.omitted`, each at offset `i*pitch - 0.5*(num-1)*pitch` along direction
`angle + π/2` from the pin center; with `num = 4`, `omitted = {2}` each
header gets exactly the three pins of 1-based indices `{1, 3, 4}` (0-based
`[0, 2, 3]`), and out-of-range omission entries have no effect at all. -/
theorem C5_pin_omission :
    (∀ (angles : List ℝ) (radius pitch : ℝ),
      (get_pin_pos angles 4 radius pitch [2]).1 =
        angles.map (fun ang =>
          (([0, 2, 3] : List ℕ).map (fun i : ℕ =>
              radius * Real.cos ang +
                ((i : ℝ) * pitch - 0.5 * ((4 - 1) * pitch)) *
                  Real.cos (ang + 0.5 * Real.pi)),
           ([0, 2, 3] : List ℕ).map (fun i : ℕ =>
              radius * Real.sin ang +
                ((i : ℝ) * pitch - 0.5 * ((4 - 1) * pitch)) *
                  Real.sin (ang + 0.5 * Real.pi))))) ∧
    (∀ (angles : List ℝ) (num : ℕ) (radius pitch : ℝ) (omitted : List ℤ),
      get_pin_pos angles num radius pitch omitted =
        get_pin_pos angles num radius pitch
          (omitted.filter
            (fun j : ℤ => decide (1 ≤ j) && decide (j ≤ (num : ℤ))))) := by
  constructor
  · intro angles radius pitch
    have hkept : (List.range 4).filter
        (fun i : ℕ => decide (¬((i : ℤ) + 1 ∈ ([2] : List ℤ)))) =
        [0, 2, 3] := by decide
    simp only [get_pin_pos, hkept]
    norm_num
  · intro angles num radius pitch omitted
    have hkept : (List.range num).filter
        (fun i : ℕ => decide (¬((i : ℤ) + 1 ∈ omitted))) =
        (List.range num).filter
          (fun i : ℕ => decide (¬((i : ℤ) + 1 ∈ omitted.filter
            (fun j : ℤ => decide (1 ≤ j) && decide (j ≤ (num : ℤ)))))) := by
      apply List.filter_congr
      intro i hi
      have hlt : i < num := List.mem_range.mp hi
      have hmem : ((i : ℤ) + 1 ∈ omitted.filter
          (fun j : ℤ => decide (1 ≤ j) && decide (j ≤ (num : ℤ)))) ↔
          ((i : ℤ) + 1 ∈ omitted) := by
        rw [List.mem_filter]
        constructor
        · exact fun h => h.1
        · intro h
          refine ⟨h, ?_⟩
          have h1 : (1 : ℤ) ≤ (i : ℤ) + 1 := by omega
          have h2 : (i : ℤ) + 1 ≤ (num : ℤ) := by omega
          simp [h1, h2]
      simp [hmem]
    simp only [get_pin_pos, hkept]

/-! ### Dictionary lemmas -/

theorem dlookup_eq_none_iff {β : Type} (k : String) (m : List (String × β)) :
    dlookup k m = none ↔ k ∉ m.map Prod.fst := by
  induction m with
  | nil => simp [dlookup]
  | cons a m ih =>
    by_cases ha : a.1 = k
    · simp [dlookup, ha]
    · simp [dlookup, ha, ih, Ne.symm ha]

theorem dlookup_isSome_iff {β : Type} (k : String) (m : List (String × β)) :
    (dlookup k m).isSome ↔ k ∈ m.map Prod.fst := by
  rw [Option.isSome_iff_ne_none, ne_eq, dlookup_eq_none_iff, not_not]

theorem dlookup_dinsert_self {β : Type} (m : List (String × β)) (k : String)
    (v : β) : dlookup k (dinsert m k v) = some v := by
  unfold dinsert
  by_cases hm : k ∈ m.map Prod.fst
  · rw [if_pos hm]
    induction m with
    | nil => simp at hm
    | cons a m ih =>
      by_cases ha : a.1 = k
      · simp [dlookup, ha]
      · have hm' : k ∈ m.map Prod.fst := by
          simpa [Ne.symm ha] using hm
        simpa [dlookup, ha] using ih hm'
  · rw [if_neg hm]
    induction m with
    | nil => simp [dlookup]
    | cons a m ih =>
      have ha : a.1 ≠ k := by
        intro h
        exact hm (by simp [h])
      have hm' : k ∉ m.map Prod.fst := fun h => hm (by simp [h])
      simpa [dlookup, ha] using ih hm'

theorem dlookup_map_replace {β : Type} (m : List (String × β))
    (k k' : String) (v : β) (hne : k' ≠ k) :
    dlookup k' (m.map (fun p => if p.1 = k then (k, v) else p)) =
      dlookup k' m := by
  induction m with
  | nil => rfl
  | cons a m ih =>
    by_cases ha : a.1 = k
    · simp only [List.map_cons, if_pos ha, dlookup, if_neg (Ne.symm hne),
        if_neg (ha ▸ Ne.symm hne : ¬a.1 = k')]
      exact ih
    · by_cases ha' : a.1 = k'
      · simp only [List.map_cons, if_neg ha, dlookup, if_pos ha']
      · simpa [dlookup, ha, ha'] using ih

theorem dlookup_append_single_ne {β : Type} (m : List (String × β))
    (k k' : String) (v : β) (hne : k' ≠ k) :
    dlookup k' (m ++ [(k, v)]) = dlookup k' m := by
  induction m with
  | nil => simp [dlookup, Ne.symm hne]
  | cons a m ih =>
    by_cases ha : a.1 = k'
    · simp [dlookup, ha]
    · simpa [dlookup, ha] using ih

theorem dlookup_dinsert_ne {β : Type} (m : List (String × β)) (k k' : String)
    (v : β) (hne : k' ≠ k) : dlookup k' (dinsert m k v) = dlookup k' m := by
  unfold dinsert
  by_cases hm : k ∈ m.map Prod.fst
  · rw [if_pos hm]
    exact dlookup_map_replace m k k' v hne
  · rw [if_neg hm]
    exact dlookup_append_single_ne m k k' v hne

/-! ### Fold machinery for `get_new_comp_data` -/

theorem get?_eq_some_getD {α : Type} (l : List α) (n : ℕ) (d : α)
    (h : n < l.length) : l.get? n = some (l.getD n d) := by
  rw [List.getD_eq_getElem?_getD, List.get?_eq_getElem?]
  cases hh : l[n]? with
  | none => rw [List.getElem?_eq_none_iff] at hh; omega
  | some a => rfl

/-- The header data written by `header_step` for panel index `ind`. -/
noncomputable def header_data (angles : List ℝ) (pin_centers : List (ℝ × ℝ))
    (pcb_cx pcb_cy : ℝ) (ind : ℕ) : CompData :=
  ⟨(pin_centers.getD ind (0, 0)).1 + pcb_cx,
   (pin_centers.getD ind (0, 0)).2 + pcb_cy,
   -(angles.getD ind 0 + Real.pi / 2)⟩

theorem header_foldlM_enumFrom (angles : List ℝ) (pcs : List (ℝ × ℝ))
    (cx cy : ℝ) (l : List String) (n : ℕ) (acc : List (String × CompData))
    (ha : n + l.length ≤ angles.length) (hc : n + l.length ≤ pcs.length) :
    (l.enumFrom n).foldlM (header_step angles pcs cx cy) acc =
      some ((l.enumFrom n).foldl
        (fun a p => dinsert a p.2 (header_data angles pcs cx cy p.1)) acc) := by
  induction l generalizing n acc with
  | nil => rfl
  | cons x xs ih =>
    have hn_a : n < angles.length := by
      simp only [List.length_cons] at ha; omega
    have hn_c : n < pcs.length := by
      simp only [List.length_cons] at hc; omega
    have hstep : header_step angles pcs cx cy acc (n, x) =
        some (dinsert acc x (header_data angles pcs cx cy n)) := by
      unfold header_step header_data
      rw [get?_eq_some_getD angles n 0 hn_a,
        get?_eq_some_getD pcs n (0, 0) hn_c]
      rfl
    show ((n, x) :: xs.enumFrom (n + 1)).foldlM
        (header_step angles pcs cx cy) acc = _
    rw [List.foldlM_cons, hstep]
    have ha' : (n + 1) + xs.length ≤ angles.length := by
      simp only [List.length_cons] at ha; omega
    have hc' : (n + 1) + xs.length ≤ pcs.length := by
      simp only [List.length_cons] at hc; omega
    simpa using ih (n + 1) (dinsert acc x (header_data angles pcs cx cy n))
      ha' hc'

theorem dlookup_foldl_dinsert_not_mem {β : Type} (g : ℕ × String → β)
    (l : List (ℕ × String)) (acc : List (String × β)) (k : String)
    (hk : k ∉ l.map Prod.snd) :
    dlookup k (l.foldl (fun a p => dinsert a p.2 (g p)) acc) =
      dlookup k acc := by
  induction l generalizing acc with
  | nil => rfl
  | cons p l ih =>
    have hk1 : k ≠ p.2 := by
      simp only [List.map_cons, List.mem_cons] at hk
      tauto
    have hk2 : k ∉ l.map Prod.snd := by
      simp only [List.map_cons, List.mem_cons] at hk
      tauto
    rw [List.foldl_cons, ih (dinsert acc p.2 (g p)) hk2]
    exact dlookup_dinsert_ne acc p.2 k (g p) hk1

theorem dlookup_foldl_dinsert_mem {β : Type} (g : ℕ × String → β)
    (l : List (ℕ × String)) (acc : List (String × β)) (p : ℕ × String)
    (hnd : (l.map Prod.snd).Nodup) (hp : p ∈ l) :
    dlookup p.2 (l.foldl (fun a q => dinsert a q.2 (g q)) acc) =
      some (g p) := by
  induction l generalizing acc with
  | nil => cases hp
  | cons q l ih =>
    rw [List.foldl_cons]
    rcases List.mem_cons.mp hp with heq | hmem
    · subst heq
      have hnotin : p.2 ∉ l.map Prod.snd := by
        simp only [List.map_cons, List.nodup_cons] at hnd
        exact hnd.1
      rw [dlookup_foldl_dinsert_not_mem g l _ p.2 hnotin,
        dlookup_dinsert_self]
    · have hnd' : (l.map Prod.snd).Nodup := by
        simp only [List.map_cons, List.nodup_cons] at hnd
        exact hnd.2
      exact ih (dinsert acc q.2 (g q)) hnd' hmem

theorem keys_dinsert {β : Type} (m : List (String × β)) (k : String) (v : β) :
    (dinsert m k v).map Prod.fst =
      if k ∈ m.map Prod.fst then m.map Prod.fst
      else m.map Prod.fst ++ [k] := by
  unfold dinsert
  by_cases hm : k ∈ m.map Prod.fst
  · rw [if_pos hm, if_pos hm, List.map_map]
    apply List.map_congr_left
    intro p hp
    by_cases hpk : p.1 = k
    · simp [hpk]
    · simp [hpk]
  · rw [if_neg hm, if_neg hm]
    simp

theorem keys_foldl_dinsert {β : Type} (g : ℕ × String → β)
    (l : List (ℕ × String)) (acc : List (String × β))
    (hnd : (l.map Prod.snd).Nodup)
    (hdisj : ∀ p ∈ l, p.2 ∉ acc.map Prod.fst) :
    (l.foldl (fun a q => dinsert a q.2 (g q)) acc).map Prod.fst =
      acc.map Prod.fst ++ l.map Prod.snd := by
  induction l generalizing acc with
  | nil => simp
  | cons q l ih =>
    rw [List.foldl_cons]
    have hq : q.2 ∉ acc.map Prod.fst := hdisj q (List.mem_cons_self q l)
    have hkeys : (dinsert acc q.2 (g q)).map Prod.fst =
        acc.map Prod.fst ++ [q.2] := by
      rw [keys_dinsert, if_neg hq]
    have hnd' : (l.map Prod.snd).Nodup := by
      simp only [List.map_cons, List.nodup_cons] at hnd
      exact hnd.2
    have hqnot : q.2 ∉ l.map Prod.snd := by
      simp only [List.map_cons, List.nodup_cons] at hnd
      exact hnd.1
    have hdisj' : ∀ p ∈ l, p.2 ∉ (dinsert acc q.2 (g q)).map Prod.fst := by
      intro p hp
      rw [hkeys]
      intro hcon
      rcases List.mem_append.mp hcon with h1 | h2
      · exact hdisj p (List.mem_cons_of_mem q hp) h1
      · have : p.2 = q.2 := by simpa using h2
        exact hqnot (this ▸ List.mem_map_of_mem Prod.snd hp)
    rw [ih (dinsert acc q.2 (g q)) hnd' hdisj', hkeys]
    simp

theorem place_foldlM_all_empty (mrd : List CompData)
    (rel : List (String × List String)) (acc : List (String × CompData))
    (hempty : ∀ p ∈ rel, p.2 = [])
    (hkeys : ∀ p ∈ rel, p.1 ∈ acc.map Prod.fst) :
    rel.foldlM (place_panel_step mrd) acc = some acc := by
  induction rel with
  | nil => rfl
  | cons p rel ih =>
    have hsome : (dlookup p.1 acc).isSome :=
      (dlookup_isSome_iff _ _).mpr (hkeys p (List.mem_cons_self p rel))
    obtain ⟨hdr, hhdr⟩ := Option.isSome_iff_exists.mp hsome
    have hstep : place_panel_step mrd acc p = some acc := by
      unfold place_panel_step
      rw [hhdr, hempty p (List.mem_cons_self p rel)]
      rfl
    rw [List.foldlM_cons, hstep]
    simpa using ih (fun q hq => hempty q (List.mem_cons_of_mem p hq))
      (fun q hq => hkeys q (List.mem_cons_of_mem p hq))

theorem mapM_option_some_of_forall {α β : Type} (f : α → Option β)
    (l : List α) (h : ∀ x ∈ l, (f x).isSome) :
    ∃ ys, l.mapM f = some ys ∧
      List.Forall₂ (fun x y => f x = some y) l ys := by
  rw [← List.mapM'_eq_mapM]
  induction l with
  | nil => exact ⟨[], rfl, List.Forall₂.nil⟩
  | cons x xs ih =>
    obtain ⟨y, hy⟩ :=
      Option.isSome_iff_exists.mp (h x (List.mem_cons_self x xs))
    obtain ⟨ys, hys, hfa⟩ := ih (fun z hz => h z (List.mem_cons_of_mem x hz))
    refine ⟨y :: ys, ?_, List.Forall₂.cons hy hfa⟩
    show (do
      let y ← f x
      let ys ← xs.mapM' f
      pure (y :: ys) : Option (List β)) = some (y :: ys)
    rw [hy, hys]
    rfl

theorem mapM_option_forall₂ {α β : Type} (f : α → Option β) (l : List α)
    (ys : List β) (h : l.mapM f = some ys) :
    List.Forall₂ (fun x y => f x = some y) l ys := by
  rw [← List.mapM'_eq_mapM] at h
  induction l generalizing ys with
  | nil =>
    have : ys = [] := by
      simpa [List.mapM'] using h.symm
    subst this
    exact List.Forall₂.nil
  | cons x xs ih =>
    have h' : (do
        let y ← f x
        let ys ← xs.mapM' f
        pure (y :: ys) : Option (List β)) = some ys := h
    cases hx : f x with
    | none => simp [hx] at h'
    | some y =>
      rw [hx] at h'
      cases hxs : xs.mapM' f with
      | none => simp [hxs] at h'
      | some zs =>
        rw [hxs] at h'
        have : y :: zs = ys := by simpa using h'
        subst this
        exact List.Forall₂.cons hx (ih zs hxs)

theorem foldlM_option_none_of_mem {α β : Type} (f : β → α → Option β)
    (l : List α) (x : α) (hx : x ∈ l) (hf : ∀ acc, f acc x = none)
    (acc0 : β) : l.foldlM f acc0 = none := by
  induction l generalizing acc0 with
  | nil => cases hx
  | cons a l ih =>
    rw [List.foldlM_cons]
    rcases List.mem_cons.mp hx with heq | hmem
    · subst heq
      rw [hf acc0]
      rfl
    · cases h : f acc0 a with
      | none => rfl
      | some b =>
        simpa using ih hmem b

/-- Effect of the normalization loop of `get_new_comp_data` on the
`cur_comp_data` state: every relative component entry is overwritten with its
rotated offset from the (live) model entry and its angle delta; all other
entries are untouched.  Requires the model not to be one of the relative
components and the relative references to be distinct (no aliasing). -/
theorem normalize_foldlM_eq (model_ref : String) (angle : ℝ)
    (refs : List String) (m0 : List (String × CompData)) (md0 : CompData)
    (hmd : dlookup model_ref m0 = some md0)
    (hnd : refs.Nodup) (hnm : model_ref ∉ refs)
    (hsome : ∀ r ∈ refs, (dlookup r m0).isSome) :
    ∃ m1, refs.foldlM (normalize_step model_ref angle) m0 = some m1 ∧
      (∀ k, k ∉ refs → dlookup k m1 = dlookup k m0) ∧
      (∀ r ∈ refs, ∀ d, dlookup r m0 = some d →
        dlookup r m1 = some ⟨(rot angle (d.x - md0.x, d.y - md0.y)).1,
          (rot angle (d.x - md0.x, d.y - md0.y)).2, d.angle - angle⟩) := by
  induction refs generalizing m0 with
  | nil => exact ⟨m0, rfl, fun k _ => rfl, fun r hr => absurd hr (by simp)⟩
  | cons r rest ih =>
    obtain ⟨d, hd⟩ :=
      Option.isSome_iff_exists.mp (hsome r (List.mem_cons_self r rest))
    have hstep : normalize_step model_ref angle m0 r =
        some (dinsert m0 r ⟨(rot angle (d.x - md0.x, d.y - md0.y)).1,
          (rot angle (d.x - md0.x, d.y - md0.y)).2, d.angle - angle⟩) := by
      unfold normalize_step
      rw [hd, hmd]
      rfl
    set d' : CompData := ⟨(rot angle (d.x - md0.x, d.y - md0.y)).1,
      (rot angle (d.x - md0.x, d.y - md0.y)).2, d.angle - angle⟩ with hd'
    have hrne : model_ref ≠ r := by
      intro h
      exact hnm (h ▸ List.mem_cons_self r rest)
    have hrest_nm : model_ref ∉ rest := fun h =>
      hnm (List.mem_cons_of_mem r h)
    have hrnotrest : r ∉ rest := (List.nodup_cons.mp hnd).1
    have hnd' : rest.Nodup := (List.nodup_cons.mp hnd).2
    have hmd1 : dlookup model_ref (dinsert m0 r d') = some md0 := by
      rw [dlookup_dinsert_ne m0 r model_ref d' hrne]
      exact hmd
    have hsome1 : ∀ q ∈ rest, (dlookup q (dinsert m0 r d')).isSome := by
      intro q hq
      have hqr : q ≠ r := fun h => hrnotrest (h ▸ hq)
      rw [dlookup_dinsert_ne m0 r q d' hqr]
      exact hsome q (List.mem_cons_of_mem r hq)
    obtain ⟨m1, hm1, huntouched, hrels⟩ :=
      ih (dinsert m0 r d') hmd1 hnd' hrest_nm hsome1
    refine ⟨m1, ?_, ?_, ?_⟩
    · rw [List.foldlM_cons, hstep]
      simpa using hm1
    · intro k hk
      have hkr : k ≠ r := fun h => hk (h ▸ List.mem_cons_self r rest)
      have hkrest : k ∉ rest := fun h => hk (List.mem_cons_of_mem r h)
      rw [huntouched k hkrest, dlookup_dinsert_ne m0 r k d' hkr]
    · intro q hq e he
      rcases List.mem_cons.mp hq with heq | hmem
      · subst heq
        have : e = d := by
          rw [hd] at he
          exact (Option.some.inj he).symm
        subst this
        rw [huntouched q hrnotrest, dlookup_dinsert_self]
      · have hqr : q ≠ r := fun h => hrnotrest (h ▸ hmem)
        have he1 : dlookup q (dinsert m0 r d') = some e := by
          rw [dlookup_dinsert_ne m0 r q d' hqr]
          exact he
        exact hrels q hmem e he1

theorem getD_eq_of_get? {α : Type} (l : List α) (n : ℕ) (d a : α)
    (h : l.get? n = some a) : l.getD n d = a := by
  rw [List.getD_eq_getElem?_getD, ← List.get?_eq_getElem?, h]
  rfl

/-- C2: when the model panel's list of relative components is empty (and so,
by the position-for-position correspondence of the relative-component map,
every panel's list is empty), `get_new_comp_data` assigns to every panel
header exactly the pin-center position translated by the pcb center, with
orientation `-(angles[ind] + π/2)`, and emits no relative-component
placements — the model panel included. -/
theorem C2_empty_rel_headers_only (angles : List ℝ)
    (pin_centers : List (ℝ × ℝ)) (pcb_cx pcb_cy : ℝ) (model_ref : String)
    (panel_ref_list : List String)
    (panel_ref_to_rel : List (String × List String))
    (cur_comp_data : List (String × CompData))
    (hnodup : panel_ref_list.Nodup)
    (hlen_a : panel_ref_list.length ≤ angles.length)
    (hlen_c : panel_ref_list.length ≤ pin_centers.length)
    (hmodel_cur : (dlookup model_ref cur_comp_data).isSome)
    (hmodel_rel : dlookup model_ref panel_ref_to_rel = some [])
    (hrel_empty : ∀ p ∈ panel_ref_to_rel, p.2 = [])
    (hrel_keys : ∀ p ∈ panel_ref_to_rel, p.1 ∈ panel_ref_list) :
    ∃ out cur2, get_new_comp_data angles pin_centers pcb_cx pcb_cy model_ref
        panel_ref_list panel_ref_to_rel cur_comp_data = some (out, cur2) ∧
      out.map Prod.fst = panel_ref_list ∧
      (∀ (ind : ℕ) (pref : String) (a : ℝ) (c : ℝ × ℝ),
        panel_ref_list.get? ind = some pref → angles.get? ind = some a →
        pin_centers.get? ind = some c →
        dlookup pref out =
          some ⟨c.1 + pcb_cx, c.2 + pcb_cy, -(a + Real.pi / 2)⟩) := by
  obtain ⟨md, hmd⟩ := Option.isSome_iff_exists.mp hmodel_cur
  have hnodup_enum : (panel_ref_list.enum.map Prod.snd).Nodup := by
    rw [List.enum_map_snd]
    exact hnodup
  have hH : panel_ref_list.enum.foldlM
      (header_step angles pin_centers pcb_cx pcb_cy)
      ([] : List (String × CompData)) =
      some (panel_ref_list.enum.foldl
        (fun a p => dinsert a p.2
          (header_data angles pin_centers pcb_cx pcb_cy p.1)) []) :=
    header_foldlM_enumFrom angles pin_centers pcb_cx pcb_cy panel_ref_list 0
      [] (by omega) (by omega)
  set H := panel_ref_list.enum.foldl
    (fun a p => dinsert a p.2
      (header_data angles pin_centers pcb_cx pcb_cy p.1)) [] with hHdef
  have hkeysH : H.map Prod.fst = panel_ref_list := by
    rw [hHdef]
    have := keys_foldl_dinsert
      (fun p => header_data angles pin_centers pcb_cx pcb_cy p.1)
      panel_ref_list.enum [] hnodup_enum (by simp)
    simpa [List.enum_map_snd] using this
  have hplace : panel_ref_to_rel.foldlM (place_panel_step []) H = some H :=
    place_foldlM_all_empty [] panel_ref_to_rel H hrel_empty
      (fun p hp => by rw [hkeysH]; exact hrel_keys p hp)
  refine ⟨H, dinsert cur_comp_data model_ref ⟨0, 0, 0⟩, ?_, hkeysH, ?_⟩
  · unfold get_new_comp_data
    rw [hH, hmd, hmodel_rel]
    show panel_ref_to_rel.foldlM (place_panel_step []) H >>=
        (fun new1 =>
          some (new1, dinsert cur_comp_data model_ref ⟨0, 0, 0⟩)) =
      some (H, dinsert cur_comp_data model_ref ⟨0, 0, 0⟩)
    rw [hplace]
    rfl
  · intro ind pref a c hpref ha hc
    have hmem : (ind, pref) ∈ panel_ref_list.enum :=
      List.mem_enum_iff_get?.mpr hpref
    have hlook := dlookup_foldl_dinsert_mem
      (fun p => header_data angles pin_centers pcb_cx pcb_cy p.1)
      panel_ref_list.enum [] (ind, pref) hnodup_enum hmem
    have h1 : angles.getD ind 0 = a := getD_eq_of_get? angles ind 0 a ha
    have h2 : pin_centers.getD ind (0, 0) = c :=
      getD_eq_of_get? pin_centers ind (0, 0) c hc
    rw [hHdef]
    rw [hlook]
    unfold header_data
    simp only [h1, h2]

theorem C2_empty_rel_headers_only_witness :
    ((["P1", "P2"] : List String).Nodup ∧
      (["P1", "P2"] : List String).length ≤ ([0, Real.pi] : List ℝ).length ∧
      (["P1", "P2"] : List String).length ≤
        ([(1, 2), (3, 4)] : List (ℝ × ℝ)).length ∧
      (dlookup "P1" ([("P1", ⟨7, 8, 9⟩), ("P2", ⟨1, 1, 1⟩)] :
        List (String × CompData))).isSome ∧
      dlookup "P1" ([("P1", []), ("P2", [])] :
        List (String × List String)) = some [] ∧
      (∀ p ∈ ([("P1", []), ("P2", [])] : List (String × List String)),
        p.2 = ([] : List String)) ∧
      (∀ p ∈ ([("P1", []), ("P2", [])] : List (String × List String)),
        p.1 ∈ (["P1", "P2"] : List String))) ∧
    ∃ out cur2, get_new_comp_data [0, Real.pi] [(1, 2), (3, 4)] 5 6 "P1"
        ["P1", "P2"] [("P1", []), ("P2", [])]
        [("P1", ⟨7, 8, 9⟩), ("P2", ⟨1, 1, 1⟩)] = some (out, cur2) ∧
      out.map Prod.fst = ["P1", "P2"] ∧
      (∀ (ind : ℕ) (pref : String) (a : ℝ) (c : ℝ × ℝ),
        (["P1", "P2"] : List String).get? ind = some pref →
        ([0, Real.pi] : List ℝ).get? ind = some a →
        ([(1, 2), (3, 4)] : List (ℝ × ℝ)).get? ind = some c →
        dlookup pref out =
          some ⟨c.1 + 5, c.2 + 6, -(a + Real.pi / 2)⟩) :=
  ⟨⟨by decide, by simp, by simp, by simp +decide [dlookup],
      by simp +decide [dlookup], by decide, by decide⟩,
    C2_empty_rel_headers_only [0, Real.pi] [(1, 2), (3, 4)] 5 6 "P1"
      ["P1", "P2"] [("P1", []), ("P2", [])]
      [("P1", ⟨7, 8, 9⟩), ("P2", ⟨1, 1, 1⟩)]
      (by decide) (by simp) (by simp) (by simp +decide [dlookup])
      (by simp +decide [dlookup]) (by decide) (by decide)⟩

/-- C9: if any panel's relative-component reference list in
`panel_ref_to_rel` is longer than the model panel's list, `get_new_comp_data`
fails (the indexing `model_rel_data[ind]` goes past the end) instead of
producing a placement; equivalently, it only succeeds when every panel's list
is no longer than the model's. -/
theorem C9_overlong_rel_list_fails (angles : List ℝ)
    (pin_centers : List (ℝ × ℝ)) (pcb_cx pcb_cy : ℝ) (model_ref : String)
    (panel_ref_list : List String)
    (panel_ref_to_rel : List (String × List String))
    (cur_comp_data : List (String × CompData)) (L : List String)
    (hm : dlookup model_ref panel_ref_to_rel = some L) (r : String)
    (l : List String) (hmem : (r, l) ∈ panel_ref_to_rel)
    (hlong : L.length < l.length) :
    get_new_comp_data angles pin_centers pcb_cx pcb_cy model_ref
      panel_ref_list panel_ref_to_rel cur_comp_data = none := by
  unfold get_new_comp_data
  cases h0 : panel_ref_list.enum.foldlM
      (header_step angles pin_centers pcb_cx pcb_cy)
      ([] : List (String × CompData)) with
  | none => simp only [h0, Option.bind_eq_bind, Option.none_bind]
  | some H =>
  cases h1 : dlookup model_ref cur_comp_data with
  | none =>
    simp only [h0, h1, Option.bind_eq_bind, Option.some_bind,
      Option.none_bind]
  | some md =>
  cases h2 : L.mapM (fun q => dlookup q cur_comp_data) with
  | none =>
    simp only [h0, h1, hm, h2, Option.bind_eq_bind, Option.some_bind,
      Option.none_bind]
  | some ds =>
  cases h3 : L.foldlM (normalize_step model_ref md.angle) cur_comp_data with
  | none =>
    simp only [h0, h1, hm, h2, h3, Option.bind_eq_bind, Option.some_bind,
      Option.none_bind]
  | some cur1 =>
  cases h4 : L.mapM
      (fun q => dlookup q (dinsert cur1 model_ref ⟨0, 0, 0⟩)) with
  | none =>
    simp only [h0, h1, hm, h2, h3, h4, Option.bind_eq_bind, Option.some_bind,
      Option.none_bind]
  | some mrd =>
  have hmrd_len : mrd.length = L.length :=
    (List.Forall₂.length_eq (mapM_option_forall₂ _ L mrd h4)).symm
  have hstep_none : ∀ acc, place_panel_step mrd acc (r, l) = none := by
    intro acc
    unfold place_panel_step
    cases hhdr : dlookup r acc with
    | none => rfl
    | some hdr =>
      simp only [Option.bind_eq_bind, Option.some_bind]
      have hx : ∃ x, l.enum.get? L.length = some (L.length, x) := by
        cases hgx : l.get? L.length with
        | none =>
          rw [List.get?_eq_none] at hgx
          omega
        | some x =>
          refine ⟨x, ?_⟩
          rw [List.get?_eq_getElem?, List.getElem?_enum,
            ← List.get?_eq_getElem?, hgx]
          rfl
      obtain ⟨x, hx⟩ := hx
      have hxmem : (L.length, x) ∈ l.enum := List.get?_mem hx
      apply foldlM_option_none_of_mem _ l.enum (L.length, x) hxmem
      intro acc2
      unfold place_rel_step
      have : mrd.get? L.length = none := by
        rw [List.get?_eq_none]
        omega
      simp only [this, Option.bind_eq_bind, Option.none_bind]
  have hfinal : panel_ref_to_rel.foldlM (place_panel_step mrd) H = none :=
    foldlM_option_none_of_mem _ panel_ref_to_rel (r, l) hmem hstep_none H
  simp only [h0, h1, hm, h2, h3, h4, hfinal, Option.bind_eq_bind,
    Option.some_bind, Option.none_bind]

theorem C9_overlong_rel_list_fails_witness :
    (dlookup "P1" ([("P1", []), ("P2", ["C1"])] :
        List (String × List String)) = some [] ∧
      (("P2", ["C1"]) : String × List String) ∈
        ([("P1", []), ("P2", ["C1"])] : List (String × List String)) ∧
      ([] : List String).length < (["C1"] : List String).length) ∧
    get_new_comp_data [] [] 0 0 "P1" [] [("P1", []), ("P2", ["C1"])]
      [("P1", ⟨0, 0, 0⟩)] = none :=
  ⟨⟨by decide, by decide, by decide⟩,
    C9_overlong_rel_list_fails [] [] 0 0 "P1" [] [("P1", []), ("P2", ["C1"])]
      [("P1", ⟨0, 0, 0⟩)] [] (by decide) "P2" ["C1"] (by decide) (by decide)⟩

theorem mapM_option_isSome {α β : Type} (f : α → Option β) (l : List α)
    (ys : List β) (h : l.mapM f = some ys) : ∀ x ∈ l, (f x).isSome := by
  have hfa := mapM_option_forall₂ f l ys h
  clear h
  induction hfa with
  | nil => intro x hx; cases hx
  | cons hR htail ih =>
    intro x hx
    rcases List.mem_cons.mp hx with heq | hmem
    · subst heq
      simp [hR]
    · exact ih x hmem

/-- Characterization of the mutated `cur_comp_data` state returned by a
completed `get_new_comp_data` call: the model entry is zeroed and every
relative-component entry holds its rotated offset and angle delta. -/
theorem get_new_comp_data_mutation_spec (angles : List ℝ)
    (pin_centers : List (ℝ × ℝ)) (pcb_cx pcb_cy : ℝ) (model_ref : String)
    (panel_ref_list : List String)
    (panel_ref_to_rel : List (String × List String))
    (cur_comp_data : List (String × CompData))
    (out cur2 : List (String × CompData)) (md : CompData)
    (rel_refs : List String)
    (hmd : dlookup model_ref cur_comp_data = some md)
    (hrel : dlookup model_ref panel_ref_to_rel = some rel_refs)
    (hnd : rel_refs.Nodup) (hnm : model_ref ∉ rel_refs)
    (hsucc : get_new_comp_data angles pin_centers pcb_cx pcb_cy model_ref
      panel_ref_list panel_ref_to_rel cur_comp_data = some (out, cur2)) :
    dlookup model_ref cur2 = some ⟨0, 0, 0⟩ ∧
    (∀ r ∈ rel_refs, ∀ d, dlookup r cur_comp_data = some d →
      dlookup r cur2 = some ⟨(rot md.angle (d.x - md.x, d.y - md.y)).1,
        (rot md.angle (d.x - md.x, d.y - md.y)).2, d.angle - md.angle⟩) := by
  unfold get_new_comp_data at hsucc
  cases h0 : panel_ref_list.enum.foldlM
      (header_step angles pin_centers pcb_cx pcb_cy)
      ([] : List (String × CompData)) with
  | none =>
    rw [h0] at hsucc
    simp only [Option.bind_eq_bind, Option.none_bind] at hsucc
    exact Option.noConfusion hsucc
  | some H =>
  rw [h0] at hsucc
  simp only [Option.bind_eq_bind, Option.some_bind, hmd, hrel] at hsucc
  cases h2 : rel_refs.mapM (fun q => dlookup q cur_comp_data) with
  | none =>
    rw [h2] at hsucc
    simp only [Option.none_bind] at hsucc
    exact Option.noConfusion hsucc
  | some ds =>
  rw [h2] at hsucc
  simp only [Option.some_bind] at hsucc
  have hsome : ∀ r ∈ rel_refs, (dlookup r cur_comp_data).isSome :=
    mapM_option_isSome _ rel_refs ds h2
  obtain ⟨m1, hm1, huntouched, hrels⟩ :=
    normalize_foldlM_eq model_ref md.angle rel_refs cur_comp_data md hmd hnd
      hnm hsome
  rw [hm1] at hsucc
  simp only [Option.some_bind] at hsucc
  cases h4 : rel_refs.mapM
      (fun q => dlookup q (dinsert m1 model_ref ⟨0, 0, 0⟩)) with
  | none =>
    rw [h4] at hsucc
    simp only [Option.none_bind] at hsucc
    exact Option.noConfusion hsucc
  | some mrd =>
  rw [h4] at hsucc
  simp only [Option.some_bind] at hsucc
  cases h5 : panel_ref_to_rel.foldlM (place_panel_step mrd) H with
  | none =>
    rw [h5] at hsucc
    simp only [Option.none_bind] at hsucc
    exact Option.noConfusion hsucc
  | some new1 =>
  rw [h5] at hsucc
  simp only [Option.some_bind, Option.pure_def, Option.some.injEq,
    Prod.mk.injEq] at hsucc
  obtain ⟨hout, hcur2⟩ := hsucc
  subst hcur2
  constructor
  · exact dlookup_dinsert_self m1 model_ref ⟨0, 0, 0⟩
  · intro r hr d hd
    have hrne : r ≠ model_ref := fun h => hnm (h ▸ hr)
    rw [dlookup_dinsert_ne m1 model_ref r ⟨0, 0, 0⟩ hrne]
    exact hrels r hr d hd

/-- C10: `get_new_comp_data` mutates its `cur_comp_data` argument in place:
after a completed call the model panel's entry has been overwritten with
`x = 0, y = 0, angle = 0`, and each of the model's relative components'
entries has been overwritten with its normalized offset (the rotation by the
model's as-read angle applied to its offset from the model) and its
angle-delta, so the as-read current positions of those components are no
longer available in the mutated map. -/
theorem C10_mutates_cur_comp_data (angles : List ℝ)
    (pin_centers : List (ℝ × ℝ)) (pcb_cx pcb_cy : ℝ) (model_ref : String)
    (panel_ref_list : List String)
    (panel_ref_to_rel : List (String × List String))
    (cur_comp_data : List (String × CompData))
    (out cur2 : List (String × CompData)) (md : CompData)
    (rel_refs : List String)
    (hmd : dlookup model_ref cur_comp_data = some md)
    (hrel : dlookup model_ref panel_ref_to_rel = some rel_refs)
    (hnd : rel_refs.Nodup) (hnm : model_ref ∉ rel_refs)
    (hsucc : get_new_comp_data angles pin_centers pcb_cx pcb_cy model_ref
      panel_ref_list panel_ref_to_rel cur_comp_data = some (out, cur2)) :
    dlookup model_ref cur2 = some ⟨0, 0, 0⟩ ∧
    (∀ r ∈ rel_refs, ∀ d, dlookup r cur_comp_data = some d →
      dlookup r cur2 = some ⟨(rot md.angle (d.x - md.x, d.y - md.y)).1,
        (rot md.angle (d.x - md.x, d.y - md.y)).2, d.angle - md.angle⟩) :=
  get_new_comp_data_mutation_spec angles pin_centers pcb_cx pcb_cy model_ref
    panel_ref_list panel_ref_to_rel cur_comp_data out cur2 md rel_refs hmd
    hrel hnd hnm hsucc

theorem C10_mutates_cur_comp_data_witness :
    (dlookup "P1" ([("P1", ⟨5, 1, 0⟩), ("C1", ⟨6, 3, 0⟩)] :
        List (String × CompData)) = some ⟨5, 1, 0⟩ ∧
      dlookup "P1" ([("P1", ["C1"])] : List (String × List String)) =
        some ["C1"] ∧
      (["C1"] : List String).Nodup ∧ "P1" ∉ (["C1"] : List String) ∧
      get_new_comp_data [0] [(0, 0)] 0 0 "P1" ["P1"] [("P1", ["C1"])]
        [("P1", ⟨5, 1, 0⟩), ("C1", ⟨6, 3, 0⟩)] =
        some ([("P1", ⟨0, 0, -(Real.pi / 2)⟩),
            ("C1", ⟨-2, 1, -(Real.pi / 2)⟩)],
          [("P1", ⟨0, 0, 0⟩), ("C1", ⟨1, 2, 0⟩)])) ∧
    (dlookup "P1" ([("P1", ⟨0, 0, 0⟩), ("C1", ⟨1, 2, 0⟩)] :
        List (String × CompData)) = some ⟨0, 0, 0⟩ ∧
      (∀ r ∈ (["C1"] : List String), ∀ d : CompData,
        dlookup r ([("P1", ⟨5, 1, 0⟩), ("C1", ⟨6, 3, 0⟩)] :
          List (String × CompData)) = some d →
        dlookup r ([("P1", ⟨0, 0, 0⟩), ("C1", ⟨1, 2, 0⟩)] :
            List (String × CompData)) =
          some ⟨(rot (0 : ℝ) (d.x - 5, d.y - 1)).1,
            (rot (0 : ℝ) (d.x - 5, d.y - 1)).2, d.angle - 0⟩)) := by
  have h1 : dlookup "P1" ([("P1", ⟨5, 1, 0⟩), ("C1", ⟨6, 3, 0⟩)] :
      List (String × CompData)) = some ⟨5, 1, 0⟩ := by
    simp +decide [dlookup]
  have h2 : dlookup "P1" ([("P1", ["C1"])] : List (String × List String)) =
      some ["C1"] := by
    simp +decide [dlookup]
  have h5 : get_new_comp_data [0] [(0, 0)] 0 0 "P1" ["P1"] [("P1", ["C1"])]
      [("P1", ⟨5, 1, 0⟩), ("C1", ⟨6, 3, 0⟩)] =
      some ([("P1", ⟨0, 0, -(Real.pi / 2)⟩),
          ("C1", ⟨-2, 1, -(Real.pi / 2)⟩)],
        [("P1", ⟨0, 0, 0⟩), ("C1", ⟨1, 2, 0⟩)]) := by
    simp +decide [get_new_comp_data, header_step, normalize_step,
      place_panel_step, place_rel_step, dlookup, dinsert, rot, List.foldlM,
      List.get?, List.mapM_cons, List.mapM_nil, List.mapM.loop, List.enum,
      List.enumFrom, Real.cos_pi_div_two, Real.sin_pi_div_two]
    norm_num
  exact ⟨⟨h1, h2, by decide, by decide, h5⟩,
    C10_mutates_cur_comp_data [0] [(0, 0)] 0 0 "P1" ["P1"] [("P1", ["C1"])]
      [("P1", ⟨5, 1, 0⟩), ("C1", ⟨6, 3, 0⟩)]
      [("P1", ⟨0, 0, -(Real.pi / 2)⟩), ("C1", ⟨-2, 1, -(Real.pi / 2)⟩)]
      [("P1", ⟨0, 0, 0⟩), ("C1", ⟨1, 2, 0⟩)] ⟨5, 1, 0⟩ ["C1"] h1 h2
      (by decide) (by decide) h5⟩

/-- C3 (counterexample): the claim says the stored normalized offset is
`R(-theta) * (p - m)`; but the code builds the matrix
`[[cos(angle), -sin(angle)], [sin(angle), cos(angle)]]` from the model's
angle `theta` itself, i.e. it applies `R(theta)`.  With `theta = π/2`,
`p - m = (1, 0)`, the stored offset is `(0, 1)`, while `R(-theta) * (p - m)`
has y-component `-1 ≠ 1`. -/
theorem C3_counterexample :
    get_new_comp_data [0] [(0, 0)] 0 0 "P1" ["P1"] [("P1", ["C1"])]
        [("P1", ⟨0, 0, Real.pi / 2⟩), ("C1", ⟨1, 0, 0⟩)] =
      some ([("P1", ⟨0, 0, -(Real.pi / 2)⟩), ("C1", ⟨-1, 0, -Real.pi⟩)],
        [("P1", ⟨0, 0, 0⟩), ("C1", ⟨0, 1, -(Real.pi / 2)⟩)]) ∧
    (rot (-(Real.pi / 2)) (1 - 0, 0 - 0)).2 ≠ 1 := by
  constructor
  · simp +decide [get_new_comp_data, header_step, normalize_step,
      place_panel_step, place_rel_step, dlookup, dinsert, rot, List.foldlM,
      List.get?, List.mapM_cons, List.mapM_nil, List.mapM.loop, List.enum,
      List.enumFrom, Real.cos_pi_div_two, Real.sin_pi_div_two]
    norm_num
    ring
  · simp only [rot, Real.sin_neg, Real.cos_neg, Real.cos_pi_div_two,
      Real.sin_pi_div_two]
    norm_num

/-- C3 (amended): in the relative-placement transform, for every
model-relative component with current position `p` and the model panel at
current position `m` with current orientation angle `theta`, the stored
normalized offset equals the rotation by `+theta` applied to `p - m`, i.e.
`offset = R(theta) * (p - m)` with
`R(a) = [[cos a, -sin a], [sin a, cos a]]`, and the stored angle-delta
equals the component's angle minus `theta`. -/
theorem C3_amended_normalized_offset (angles : List ℝ)
    (pin_centers : List (ℝ × ℝ)) (pcb_cx pcb_cy : ℝ) (model_ref : String)
    (panel_ref_list : List String)
    (panel_ref_to_rel : List (String × List String))
    (cur_comp_data : List (String × CompData))
    (out cur2 : List (String × CompData)) (md : CompData)
    (rel_refs : List String)
    (hmd : dlookup model_ref cur_comp_data = some md)
    (hrel : dlookup model_ref panel_ref_to_rel = some rel_refs)
    (hnd : rel_refs.Nodup) (hnm : model_ref ∉ rel_refs)
    (hsucc : get_new_comp_data angles pin_centers pcb_cx pcb_cy model_ref
      panel_ref_list panel_ref_to_rel cur_comp_data = some (out, cur2)) :
    ∀ r ∈ rel_refs, ∀ d, dlookup r cur_comp_data = some d →
      dlookup r cur2 = some
        ⟨Real.cos md.angle * (d.x - md.x) - Real.sin md.angle * (d.y - md.y),
         Real.sin md.angle * (d.x - md.x) + Real.cos md.angle * (d.y - md.y),
         d.angle - md.angle⟩ :=
  (get_new_comp_data_mutation_spec angles pin_centers pcb_cx pcb_cy model_ref
    panel_ref_list panel_ref_to_rel cur_comp_data out cur2 md rel_refs hmd
    hrel hnd hnm hsucc).2

theorem C3_amended_normalized_offset_witness :
    (dlookup "P1" ([("P1", ⟨0, 0, Real.pi / 2⟩), ("C1", ⟨1, 0, 0⟩)] :
        List (String × CompData)) = some ⟨0, 0, Real.pi / 2⟩ ∧
      dlookup "P1" ([("P1", ["C1"])] : List (String × List String)) =
        some ["C1"] ∧
      (["C1"] : List String).Nodup ∧ "P1" ∉ (["C1"] : List String) ∧
      get_new_comp_data [0] [(0, 0)] 0 0 "P1" ["P1"] [("P1", ["C1"])]
        [("P1", ⟨0, 0, Real.pi / 2⟩), ("C1", ⟨1, 0, 0⟩)] =
        some ([("P1", ⟨0, 0, -(Real.pi / 2)⟩), ("C1", ⟨-1, 0, -Real.pi⟩)],
          [("P1", ⟨0, 0, 0⟩), ("C1", ⟨0, 1, -(Real.pi / 2)⟩)])) ∧
    (∀ r ∈ (["C1"] : List String), ∀ d : CompData,
      dlookup r ([("P1", ⟨0, 0, Real.pi / 2⟩), ("C1", ⟨1, 0, 0⟩)] :
        List (String × CompData)) = some d →
      dlookup r ([("P1", ⟨0, 0, 0⟩), ("C1", ⟨0, 1, -(Real.pi / 2)⟩)] :
          List (String × CompData)) = some
        ⟨Real.cos (Real.pi / 2) * (d.x - 0) -
            Real.sin (Real.pi / 2) * (d.y - 0),
         Real.sin (Real.pi / 2) * (d.x - 0) +
            Real.cos (Real.pi / 2) * (d.y - 0),
         d.angle - Real.pi / 2⟩) := by
  have h1 : dlookup "P1" ([("P1", ⟨0, 0, Real.pi / 2⟩), ("C1", ⟨1, 0, 0⟩)] :
      List (String × CompData)) = some ⟨0, 0, Real.pi / 2⟩ := by
    simp +decide [dlookup]
  have h2 : dlookup "P1" ([("P1", ["C1"])] : List (String × List String)) =
      some ["C1"] := by
    simp +decide [dlookup]
  have h5 : get_new_comp_data [0] [(0, 0)] 0 0 "P1" ["P1"] [("P1", ["C1"])]
      [("P1", ⟨0, 0, Real.pi / 2⟩), ("C1", ⟨1, 0, 0⟩)] =
      some ([("P1", ⟨0, 0, -(Real.pi / 2)⟩), ("C1", ⟨-1, 0, -Real.pi⟩)],
        [("P1", ⟨0, 0, 0⟩), ("C1", ⟨0, 1, -(Real.pi / 2)⟩)]) := by
    simp +decide [get_new_comp_data, header_step, normalize_step,
      place_panel_step, place_rel_step, dlookup, dinsert, rot, List.foldlM,
      List.get?, List.mapM_cons, List.mapM_nil, List.mapM.loop, List.enum,
      List.enumFrom, Real.cos_pi_div_two, Real.sin_pi_div_two]
    norm_num
    ring
  exact ⟨⟨h1, h2, by decide, by decide, h5⟩,
    C3_amended_normalized_offset [0] [(0, 0)] 0 0 "P1" ["P1"]
      [("P1", ["C1"])] [("P1", ⟨0, 0, Real.pi / 2⟩), ("C1", ⟨1, 0, 0⟩)]
      [("P1", ⟨0, 0, -(Real.pi / 2)⟩), ("C1", ⟨-1, 0, -Real.pi⟩)]
      [("P1", ⟨0, 0, 0⟩), ("C1", ⟨0, 1, -(Real.pi / 2)⟩)]
      ⟨0, 0, Real.pi / 2⟩ ["C1"] h1 h2 (by decide) (by decide) h5⟩

end FlypanelLayout
